import Mathlib

/-!
Verification of the council orchestration and role-based allocation engine
of the magic-deck-builder repository, against its natural-language spec.

Shallow embedding conventions:
* Python `float` values (weights, scores, prices, mana values) are modelled
  as exact rationals `ℚ`; the arithmetic in the engine is on small literal
  values for which Python float arithmetic is exact.
* Python `dict` values are modelled as association lists; an ordinary
  `dict[k]` read is first-match lookup (keys are unique in every dict the
  code builds), while a dict *comprehension* that can see duplicate keys
  keeps the last write, which is modelled by `findLast?`.
* Database queries (`session.query(Card)`) are modelled as scans over an
  explicit `corpus : List Card`, with `.filter(...notin_...)` as a list
  filter and `.limit(n)` as `List.take n`.
* External collaborators that the spec declares out of scope (the LLM call,
  the role classifier `classify_card_role`, the identity scorer
  `score_card_for_identity`, `random.sample`) are function parameters.
-/

/-- A card record, with the attributes the allocation engine reads
(`src/database/models.py` / spec §3 Candidate).  `legalities` is the JSON
legality dict; `price_usd` is `None` when the price is unknown. -/
structure Card where
  id : ℕ
  name : String
  color_identity : List String
  cmc : ℚ
  price_usd : Option ℚ
  legalities : List (String × String)
  deriving DecidableEq, Repr

/-- First-match association-list lookup, modelling `dict.get(key)`. -/
def dictGet {α : Type} (entries : List (String × α)) (key : String) : Option α :=
  (entries.find? (fun p => p.1 = key)).map (fun p => p.2)

/-- Last-match lookup, modelling a dict comprehension `{k(x): v(x) for x in xs}`
where later duplicate keys overwrite earlier ones. -/
def findLast? {α : Type} (l : List α) (p : α → Bool) : Option α :=
  l.reverse.find? p

/-- Model of `card.legalities.get("commander") == "legal"` from `graph.py` / `selector.py`. -/
def commanderLegal (card : Card) : Prop :=
  dictGet card.legalities "commander" = some "legal"

instance (card : Card) : Decidable (commanderLegal card) := by
  unfold commanderLegal; infer_instance

/-! ## Voting (`src/engine/council/voting.py`) -/

/-- Model of `_normalize_rankings`: drop agents whose ranking is empty (Python truthiness
of the list) and drop empty-string entries (truthiness of each name). -/
def _normalize_rankings (rankings : List (String × List String)) :
    List (String × List String) :=
  (rankings.filter (fun p => !p.2.isEmpty)).map
    (fun p => (p.1, p.2.filter (fun name => name ≠ "")))

/-- Model of `agent_weights.get(agent_id, 1.0)`. -/
def weightOf (agent_weights : List (String × ℚ)) (agent_id : String) : ℚ :=
  match dictGet agent_weights agent_id with
  | some w => w
  | none => 1

/-- Model of `scores[name] += score` on a `defaultdict(float)`: update the existing
entry in place, or append a fresh entry at the end. -/
def addScore (m : List (String × ℚ)) (name : String) (v : ℚ) :
    List (String × ℚ) :=
  match m with
  | [] => [(name, v)]
  | (k, s) :: rest =>
      if k = name then (k, s + v) :: rest else (k, s) :: addScore rest name v

/-- Fold a list of `(name, increment)` contributions into a score map. -/
def addMany (m : List (String × ℚ)) (contribs : List (String × ℚ)) :
    List (String × ℚ) :=
  contribs.foldl (fun acc p => addScore acc p.1 p.2) m

/-- The sort key `(-score, name)` of `sorted(scores.items(), ...)`, as the
ordering relation `a` comes no later than `b`. -/
def voteEntryLe (a b : String × ℚ) : Prop :=
  b.2 < a.2 ∨ (a.2 = b.2 ∧ a.1 ≤ b.1)

instance : DecidableRel voteEntryLe := fun a b =>
  inferInstanceAs (Decidable (_ ∨ _))

/-- Model of `borda_count`: each agent's ranking is truncated to `top_k`; position
`idx` of a ranking of (normalized) length `total` contributes
`(total - idx) * weight`; the score map is then sorted by `(-score, name)`. -/
def borda_count (rankings : List (String × List String))
    (agent_weights : List (String × ℚ)) (top_k : ℕ) : List String :=
  let nr := _normalize_rankings rankings
  let scores := nr.foldl (fun m p =>
    let weight := weightOf agent_weights p.1
    let total := p.2.length
    (p.2.take top_k).enum.foldl
      (fun m' q => addScore m' q.2 (((total : ℚ) - (q.1 : ℚ)) * weight)) m) []
  (List.insertionSort voteEntryLe scores).map Prod.fst

/-- Model of `majority_vote`: every candidate in an agent's truncated ranking
contributes `weight`, position-independent; same sort. -/
def majority_vote (rankings : List (String × List String))
    (agent_weights : List (String × ℚ)) (top_k : ℕ) : List String :=
  let nr := _normalize_rankings rankings
  let scores := nr.foldl (fun m p =>
    let weight := weightOf agent_weights p.1
    (p.2.take top_k).foldl (fun m' name => addScore m' name weight) m) []
  (List.insertionSort voteEntryLe scores).map Prod.fst

/-- Model of `aggregate_rankings`: `"majority"` dispatches to majority vote, anything
else (including unknown strategies) to Borda. -/
def aggregate_rankings (rankings : List (String × List String))
    (agent_weights : List (String × ℚ)) (strategy : String) (top_k : ℕ) :
    List String :=
  if strategy = "majority" then majority_vote rankings agent_weights top_k
  else borda_count rankings agent_weights top_k

/-! ## Configuration data model (`src/engine/council/config.py`)

The `context : AgentContextConfig` field (token budgets and filters for the
LLM prompt) is omitted: it is consumed only inside the external LLM round
trip, which the spec treats as a black box. -/

/-- Model of `AgentPreferences` with its dataclass defaults. -/
structure AgentPreferences where
  theme_weight : ℚ := 1/2
  efficiency_weight : ℚ := 1/4
  budget_weight : ℚ := 1/4
  price_cap_usd : Option ℚ := none
  deriving DecidableEq, Repr

/-- Model of `AgentConfig` with its dataclass defaults. -/
structure AgentConfig where
  agent_id : String
  agent_type : String
  display_name : Option String := none
  weight : ℚ := 1
  model : Option String := none
  temperature : ℚ := 3/10
  preferences : AgentPreferences := {}
  deriving DecidableEq, Repr

/-- Model of `VotingConfig`.  `top_k` is an `int` in Python; the engine only ever
slices with it (`ranked[:top_k]`), and every configuration the claims range
over has `top_k > 0`, so it is modelled as `ℕ`. -/
structure VotingConfig where
  strategy : String := "borda"
  top_k : ℕ := 25
  deriving DecidableEq, Repr

/-- Model of `RoutingConfig` with its dataclass defaults. -/
structure RoutingConfig where
  strategy : String := "parallel"
  agent_ids : List String := []
  debate_adjudicator_id : Option String := none
  deriving DecidableEq, Repr

/-- Model of `CouncilConfig` with its dataclass defaults. -/
structure CouncilConfig where
  version : ℤ := 1
  voting : VotingConfig := {}
  routing : RoutingConfig := {}
  agents : List AgentConfig := []
  deriving DecidableEq, Repr

/-- Model of `DEFAULT_CONFIG` from `config.py`: one heuristic agent and two llm
agents, the llm agents carrying `settings.openai_model`. -/
def DEFAULT_CONFIG (openai_model : String) : CouncilConfig :=
  { agents := [
      { agent_id := "heuristic-core", agent_type := "heuristic" },
      { agent_id := "llm-theme", agent_type := "llm", model := some openai_model },
      { agent_id := "llm-budget", agent_type := "llm", model := some openai_model }] }

/-- The observable outcome of `load_council_config` reading its YAML file,
up to the parse of a non-empty mapping document.  `missing` = no file at the
path; `empty` = the file parses to `None`, `{}`, or a non-dict value (all of
which leave `data = {}`); `unparseable` = `yaml.safe_load` raises
`yaml.YAMLError`; `parsed d` = the file parses to a non-empty mapping `d`. -/
inductive ConfigDocument (Doc : Type) where
  | missing
  | empty
  | unparseable
  | parsed (d : Doc)

/-- Model of `load_council_config` (no overrides), with the YAML I/O reified as a
`ConfigDocument` and `_parse_config` as the parameter `parse_config`.
The source does not catch `yaml.YAMLError`, so an unparseable file
propagates as an error; when the parsed config has no agents the built-in
default is returned. -/
def load_council_config {Doc : Type} (openai_model : String)
    (parse_config : Doc → CouncilConfig) (doc : ConfigDocument Doc) :
    Except String CouncilConfig :=
  match doc with
  | .missing => .ok (DEFAULT_CONFIG openai_model)
  | .empty => .ok (DEFAULT_CONFIG openai_model)
  | .unparseable => .error "yaml.YAMLError"
  | .parsed d =>
      let config := parse_config d
      if config.agents.isEmpty then .ok (DEFAULT_CONFIG openai_model)
      else .ok config

/-! ## Agents (`src/engine/council/agents.py`) -/

/-- Model of `_normalize_score`: clip to `[0, 1]`. -/
def _normalize_score (value : ℚ) : ℚ :=
  if value < 0 then 0 else if 1 < value then 1 else value

/-- Model of `_price_score`.  `preferences.price_cap_usd or 20.0` replaces both
`None` and `0.0` (Python falsiness) by the default cap `20.0`. -/
def _price_score (price_usd : Option ℚ) (preferences : AgentPreferences) : ℚ :=
  match price_usd with
  | none => 1/2
  | some price =>
      let cap : ℚ := match preferences.price_cap_usd with
        | none => 20
        | some c => if c = 0 then 20 else c
      if cap ≤ 0 then 0 else _normalize_score (1 - min (price / cap) 1)

/-- The sort key `(-score, name)` of `scored.sort(...)` in
`heuristic_rank_candidates`, on `(score, name)` pairs. -/
def scoredLe (a b : ℚ × String) : Prop :=
  b.1 < a.1 ∨ (a.1 = b.1 ∧ a.2 ≤ b.2)

instance : DecidableRel scoredLe := fun a b =>
  inferInstanceAs (Decidable (_ ∨ _))

/-- Model of `heuristic_rank_candidates`.  `score_card_for_identity` is the
black-box identity scorer (spec §1), passed as `scoreIdentity`; the role
classifier is passed as `classify`.  `if identity` is Python truthiness:
both `None` and the empty dict give the neutral theme score `0.5`.
Python's stable sort and `insertionSort` may order differently only
within runs of entries with equal `(score, name)` keys, which are equal
pairs, so the returned name list is unaffected. -/
def heuristic_rank_candidates (scoreIdentity : Card → List (String × ℚ) → ℚ)
    (classify : Card → String) (candidates : List Card) (role : String)
    (identity : Option (List (String × ℚ))) (preferences : AgentPreferences) :
    List String :=
  let scored := candidates.map (fun card =>
    let theme_score : ℚ := match identity with
      | none => 1/2
      | some ident => if ident.isEmpty then 1/2 else scoreIdentity card ident
    let efficiency_score := _normalize_score (1 / (1 + max card.cmc 0))
    let budget_score := _price_score card.price_usd preferences
    let role_bonus : ℚ := if classify card = role then 1/10 else 0
    let total_weight0 := preferences.theme_weight + preferences.efficiency_weight
      + preferences.budget_weight
    let total_weight := if total_weight0 ≤ 0 then 1 else total_weight0
    let weighted := (theme_score * preferences.theme_weight
      + efficiency_score * preferences.efficiency_weight
      + budget_score * preferences.budget_weight) / total_weight
    (weighted + role_bonus, card.name))
  (List.insertionSort scoredLe scored).map Prod.snd

/-- Model of `llm_rank_candidates`, at the granularity the engine observes: with no
API key configured it returns `[]` before any network traffic; otherwise
the prompt construction, `ChatOpenAI` round trip and `_parse_ranked_names`
are external I/O, abstracted as the already-parsed `externalRanking`
(`[]` for an empty, malformed, non-array or timed-out response). -/
def llm_rank_candidates (openai_api_key : Option String)
    (externalRanking : List String) : List String :=
  match openai_api_key with
  | none => []
  | some _ => externalRanking

/-! ## Routing (`src/engine/council/routing.py`) -/

/-- The shared `CouncilState` TypedDict, as populated by `graph.invoke` in
`graph.py`. -/
structure CouncilState where
  role : String
  commander_name : String
  commander_text : String
  deck_cards : List Card
  candidates : List Card
  identity : Option (List (String × ℚ))
  agent_rankings : List (String × List String)
  final_ranking : List String
  config : CouncilConfig

/-- Subscripting the council state dict for a `list[Card]`-valued entry,
modelling `state[key]`.  At run time the state is a plain dict whose keys
are exactly the fields above plus `"trace_id"`; the only keys holding a
list of cards are `"deck_cards"` and `"candidates"`, and any other key
raises `KeyError` (keys of other value types would fault at the use site
and are never subscripted here). -/
def stateGetCardList (state : CouncilState) (key : String) :
    Except String (List Card) :=
  if key = "deck_cards" then .ok state.deck_cards
  else if key = "candidates" then .ok state.candidates
  else .error ("KeyError: " ++ key)

/-- Model of `_agent_node`'s inner `run`, returning the `{agent_id: ranking}` update
it contributes to `agent_rankings`, or the exception it raises.  The `llm`
branch subscripts the state with the literal key `"XXdeck_cardsXX"`
(`routing.py` line 58), faithfully reproduced here. -/
def _agent_node (scoreIdentity : Card → List (String × ℚ) → ℚ)
    (classify : Card → String) (openai_api_key : Option String)
    (externalRanking : List String) (agent_id : String) (agent_type : String)
    (state : CouncilState) : Except String (String × List String) :=
  match state.config.agents.find? (fun cfg => cfg.agent_id = agent_id) with
  | none => .ok (agent_id, [])
  | some agent =>
      if agent_type = "heuristic" then
        .ok (agent_id, heuristic_rank_candidates scoreIdentity classify
          state.candidates state.role state.identity agent.preferences)
      else if agent_type = "llm" then
        match stateGetCardList state "XXdeck_cardsXX" with
        | .error e => .error e
        | .ok _passedDeckCards =>
            let ranked := llm_rank_candidates openai_api_key externalRanking
            let ranked := if ranked.isEmpty then
                heuristic_rank_candidates scoreIdentity classify
                  state.candidates state.role state.identity agent.preferences
              else ranked
            .ok (agent_id, ranked)
      else
        .ok (agent_id, heuristic_rank_candidates scoreIdentity classify
          state.candidates state.role state.identity agent.preferences)

/-- The langgraph `StateGraph`, reduced to its topology: node names, edges,
and the entry point.  Node callables are irrelevant to the routed shape. -/
structure StateGraph where
  nodes : List String := []
  edges : List (String × String) := []
  entry_point : Option String := none
  deriving DecidableEq, Repr

/-- Model of `graph.add_node(name, fn)` (topology only). -/
def add_node (g : StateGraph) (name : String) : StateGraph :=
  { g with nodes := g.nodes ++ [name] }

/-- Model of `graph.add_edge(a, b)`. -/
def add_edge (g : StateGraph) (a b : String) : StateGraph :=
  { g with edges := g.edges ++ [(a, b)] }

/-- Model of `graph.set_entry_point(name)`. -/
def set_entry_point (g : StateGraph) (name : String) : StateGraph :=
  { g with entry_point := some name }

/-- langgraph's `END` sentinel. -/
def END_NODE : String := "__end__"

/-- Model of `_resolve_agents`: an empty `routing.agent_ids` selects every configured
agent; otherwise the listed ids select and order a subset, unknown ids
dropped.  `agent_map` is a dict comprehension, so a duplicated
`agent_id` resolves to the last declaration. -/
def _resolve_agents (config : CouncilConfig) : List AgentConfig :=
  if config.routing.agent_ids.isEmpty then config.agents
  else config.routing.agent_ids.filterMap
    (fun aid => findLast? config.agents (fun a => a.agent_id = aid))

/-- Model of `_build_parallel`. -/
def _build_parallel (_config : CouncilConfig) (agents : List AgentConfig) :
    StateGraph :=
  let g := add_node (add_node {} "start") "aggregate"
  let g := agents.foldl (fun g agent =>
    let node_id := "agent_" ++ agent.agent_id
    add_edge (add_edge (add_node g node_id) "start" node_id) node_id "aggregate") g
  add_edge (set_entry_point g "start") "aggregate" END_NODE

/-- Model of `_build_sequential`: a chain `start → a₁ → ... → aₙ → aggregate`. -/
def _build_sequential (_config : CouncilConfig) (agents : List AgentConfig) :
    StateGraph :=
  let g := set_entry_point (add_node (add_node {} "start") "aggregate") "start"
  let st := agents.foldl (fun (st : StateGraph × String) agent =>
    let node_id := "agent_" ++ agent.agent_id
    (add_edge (add_node st.1 node_id) st.2 node_id, node_id)) (g, "start")
  add_edge (add_edge st.1 st.2 "aggregate") "aggregate" END_NODE

/-- The adjudicator chosen in `_build_debate`: the agent named by
`debate_adjudicator_id` when that is a truthy (non-empty) string naming a
selected agent, else the last selected agent when more than two are
selected, else none. -/
def debateAdjudicator (config : CouncilConfig) (agents : List AgentConfig) :
    Option AgentConfig :=
  let fromId : Option AgentConfig :=
    match config.routing.debate_adjudicator_id with
    | none => none
    | some aid =>
        if aid = "" then none
        else agents.find? (fun a => a.agent_id = aid)
  match fromId with
  | some adj => some adj
  | none => if 2 < agents.length then agents.getLast? else none

/-- Model of `_build_debate`. -/
def _build_debate (config : CouncilConfig) (agents : List AgentConfig) :
    StateGraph :=
  let g := set_entry_point (add_node (add_node {} "start") "aggregate") "start"
  let adjudicator := debateAdjudicator config agents
  let debaters : List AgentConfig := match adjudicator with
    | some adj =>
        if adj ∈ agents then agents.filter (fun a => a.agent_id ≠ adj.agent_id)
        else agents
    | none => agents
  let debaters := if 2 < debaters.length then debaters.take 2 else debaters
  let g := debaters.foldl (fun (g : StateGraph) (agent : AgentConfig) =>
    let node_id := "agent_" ++ agent.agent_id
    add_edge (add_node g node_id) "start" node_id) g
  let g := match adjudicator with
    | some adj =>
        let adjudicator_node := "agent_" ++ adj.agent_id
        let g := add_node g adjudicator_node
        let g := debaters.foldl (fun (g : StateGraph) (agent : AgentConfig) =>
          add_edge g ("agent_" ++ agent.agent_id) adjudicator_node) g
        add_edge g adjudicator_node "aggregate"
    | none => debaters.foldl (fun (g : StateGraph) (agent : AgentConfig) =>
        add_edge g ("agent_" ++ agent.agent_id) "aggregate") g
  add_edge g "aggregate" END_NODE

/-- Model of `_STRATEGY_BUILDERS.get(strategy, _build_parallel)`. -/
def _strategy_builder (strategy : String) :
    CouncilConfig → List AgentConfig → StateGraph :=
  if strategy = "parallel" then _build_parallel
  else if strategy = "sequential" then _build_sequential
  else if strategy = "debate" then _build_debate
  else _build_parallel

/-- Model of `CouncilRouter.build_graph`: resolve the agent subset, fall back to all
configured agents when the resolution is empty, and dispatch on the routing
strategy. -/
def build_graph (config : CouncilConfig) : StateGraph :=
  let agents := _resolve_agents config
  let agents := if agents.isEmpty then config.agents else agents
  _strategy_builder config.routing.strategy config agents

/-! ## Candidate pool and council selection (`src/engine/council/graph.py`) -/

/-- A card is eligible for a pool: commander-legal, its color identity a
subset of the commander's, and classified into the requested role.  The
exclusion filter is applied earlier, in the query (`Card.id.notin_`). -/
def poolEligible (classify : Card → String) (role : String)
    (commander_colors : List String) (card : Card) : Prop :=
  commanderLegal card ∧ (∀ c ∈ card.color_identity, c ∈ commander_colors) ∧
    classify card = role

instance (classify : Card → String) (role : String) (cs : List String)
    (card : Card) : Decidable (poolEligible classify role cs card) := by
  unfold poolEligible; infer_instance

/-- The scan loop of `_build_candidate_pool`: append each eligible card and
break as soon as `limit` cards have been collected (the break test runs
after the append, so with `limit = 0` one card is still accepted). -/
def poolScan (classify : Card → String) (role : String)
    (commander_colors : List String) (limit : ℕ) :
    List Card → List Card → List Card
  | [], acc => acc.reverse
  | card :: rest, acc =>
      if poolEligible classify role commander_colors card then
        let acc' := card :: acc
        if limit ≤ acc'.length then acc'.reverse
        else poolScan classify role commander_colors limit rest acc'
      else poolScan classify role commander_colors limit rest acc

/-- Model of `_build_candidate_pool`: the query excludes `exclude_ids` (when any) and
is capped at the first 5000 records; the Python loop then filters for
eligibility with early exit at `limit`. -/
def _build_candidate_pool (classify : Card → String) (corpus : List Card)
    (role : String) (color_identity : List String) (exclude_ids : List ℕ)
    (limit : ℕ) : List Card :=
  let queried := (if exclude_ids.isEmpty then corpus
    else corpus.filter (fun card => card.id ∉ exclude_ids)).take 5000
  poolScan classify role color_identity limit queried []

/-- Model of `select_cards_with_council`, for one role.  The config is taken as a
parameter (the source loads it via `load_council_config`; claims about the
allocation loop are independent of where it came from).  The compiled
langgraph execution `graph.invoke(...)["final_ranking"]` is the external
boundary, abstracted as `rankOracle` applied to the candidate pool;
`candidate_map` is a dict comprehension keyed by card name, so a duplicated
name resolves to the last card in the pool. -/
def select_cards_with_council (classify : Card → String)
    (rankOracle : List Card → List String) (corpus : List Card)
    (commander_colors : List String) (role : String) (count : ℕ)
    (exclude_ids : List ℕ) (config : CouncilConfig) : List Card :=
  let pool_size := max (count * 6) config.voting.top_k
  let candidates := _build_candidate_pool classify corpus role commander_colors
    exclude_ids pool_size
  if candidates.isEmpty then []
  else
    let ranked_names := rankOracle candidates
    let ranked_cards := ranked_names.filterMap
      (fun name => findLast? candidates (fun card => card.name = name))
    ranked_cards.take count

/-! ## Fallback selection (`src/engine/selector.py`) -/

/-- The eligibility scan of `select_cards_for_role`, with early exit once
`count * 3` eligible cards are collected ("3x more than needed"). -/
def roleScan (classify : Card → String) (role : String)
    (commander_colors : List String) (cap : ℕ) :
    List Card → List Card → List Card
  | [], acc => acc.reverse
  | card :: rest, acc =>
      if poolEligible classify role commander_colors card then
        let acc' := card :: acc
        if cap ≤ acc'.length then acc'.reverse
        else roleScan classify role commander_colors cap rest acc'
      else roleScan classify role commander_colors cap rest acc

/-- The sort key `(-score, card.name)` used on `(score, card)` pairs in
`select_cards_for_role`. -/
def cardScoredLe (a b : ℚ × Card) : Prop :=
  b.1 < a.1 ∨ (a.1 = b.1 ∧ a.2.name ≤ b.2.name)

instance : DecidableRel cardScoredLe := fun a b =>
  inferInstanceAs (Decidable (_ ∨ _))

/-- Model of `select_cards_for_role`: query excluding `exclude_ids`, capped at 5000;
collect up to `count * 3` eligible cards; when an identity dict is given
(`is not None` — the deck builder always passes one), rank them by the
black-box identity scorer with name tie-break and return the first `count`;
with no identity the source draws `random.sample`, abstracted as `sampler`. -/
def select_cards_for_role (classify : Card → String)
    (scoreIdentity : Card → List (String × ℚ) → ℚ)
    (sampler : List Card → ℕ → List Card) (corpus : List Card) (role : String)
    (color_identity : List String) (count : ℕ)
    (identity : Option (List (String × ℚ))) (exclude_ids : List ℕ) :
    List Card :=
  let queried := (if exclude_ids.isEmpty then corpus
    else corpus.filter (fun card => card.id ∉ exclude_ids)).take 5000
  let eligible_cards := roleScan classify role color_identity (count * 3)
    queried []
  match identity with
  | some ident =>
      let scored_cards := eligible_cards.map (fun card =>
        (scoreIdentity card ident, card))
      (((List.insertionSort cardScoredLe scored_cards).map Prod.snd).take count)
  | none => sampler eligible_cards (min count eligible_cards.length)

/-! ## Role allocation loop (`src/engine/deck_builder.py`, Steps 3-4)

The loop is modelled on the council path (`constraints["use_council"]`
truthy), which is the path the spec's Role Allocator describes.  Database
bookkeeping (`DeckCard` rows, sessions) and attribution collection do not
affect which cards each role receives and are omitted. -/

/-- The fixed role sequence with base targets. -/
def role_targets : List (String × ℕ) :=
  [("ramp", 10), ("draw", 10), ("removal", 10), ("wincons", 5), ("flex", 3)]

/-- The mutable state of the allocation loop: `cards_by_role` accumulated in
role order, the global `selected_ids` exclusion set, and the shortfall
accumulator. -/
structure BuildState where
  cards_by_role : List (String × List Card) := []
  selected_ids : List ℕ := []
  shortfall : ℕ := 0

/-- Everything the per-role step reads apart from the evolving state:
the oracles, the corpus, the council config, the commander's color identity
and the deck identity vector.  `rankOracle` takes the role so that distinct
roles may see distinct council outcomes. -/
structure AllocEnv where
  classify : Card → String
  scoreIdentity : Card → List (String × ℚ) → ℚ
  sampler : List Card → ℕ → List Card
  rankOracle : String → List Card → List String
  corpus : List Card
  config : CouncilConfig
  commander_colors : List String
  identity : List (String × ℚ)

/-- The cards one role obtains: the council selection, extended by the
fallback selection when the council returned fewer than `target_count`
(the fallback sees the same global exclusion set, not the in-flight picks
of the current role). -/
def _role_cards (env : AllocEnv) (st : BuildState) (role_name : String)
    (target_count : ℕ) : List Card :=
  let cards := select_cards_with_council env.classify (env.rankOracle role_name)
    env.corpus env.commander_colors role_name target_count st.selected_ids
    env.config
  if cards.length < target_count then
    cards ++ select_cards_for_role env.classify env.scoreIdentity env.sampler
      env.corpus role_name env.commander_colors (target_count - cards.length)
      (some env.identity) st.selected_ids
  else cards

/-- One iteration of the `for role_name, target_count in role_targets`
loop: record the role's cards, add every selected id to the global
exclusion set before the next role starts, and bump the shortfall
accumulator when the role still fell short. -/
def _role_step (env : AllocEnv) (st : BuildState) (rt : String × ℕ) :
    BuildState :=
  let cards := _role_cards env st rt.1 rt.2
  { cards_by_role := st.cards_by_role ++ [(rt.1, cards)]
    selected_ids := st.selected_ids ++ cards.map (fun card => card.id)
    shortfall := if cards.length < rt.2 then st.shortfall + (rt.2 - cards.length)
      else st.shortfall }

/-- The outcome of Steps 3-4: the per-role card lists (fixed roles in order,
then the catch-all `synergy` role), the final exclusion set and shortfall,
and the synergy target that was used. -/
structure RoleAllocResult where
  cards_by_role : List (String × List Card)
  selected_ids : List ℕ
  shortfall : ℕ
  synergy_target : ℕ

/-- Steps 3-4 of `_generate_deck_internal`: fold the fixed role sequence
from the seeded exclusion set (commander and lands), then run the catch-all
`synergy` allocation with target `24 + shortfall`.  The synergy step reuses
the same council-plus-fallback shape; its cards are recorded but (being
last) are not added back into `selected_ids`. -/
def _generate_deck_roles (env : AllocEnv) (init_selected : List ℕ) :
    RoleAllocResult :=
  let st := role_targets.foldl (_role_step env)
    { cards_by_role := [], selected_ids := init_selected, shortfall := 0 }
  let synergy_target := 24 + st.shortfall
  let synergy_cards := _role_cards env st "synergy" synergy_target
  { cards_by_role := st.cards_by_role ++ [("synergy", synergy_cards)]
    selected_ids := st.selected_ids
    shortfall := st.shortfall
    synergy_target := synergy_target }

/-! ## Shared concrete fixtures for the claim instances -/

/-- A trivial identity scorer (the scorer is a black box; concrete instances
only need some fixed value). -/
def exScoreIdentity : Card → List (String × ℚ) → ℚ := fun _ _ => 0

/-- A classifier that assigns roles by card id: id 1 is `ramp`, id 3 is
`synergy`, everything else `flex`. -/
def exClassify : Card → String := fun card =>
  if card.id = 1 then "ramp" else if card.id = 3 then "synergy" else "flex"

/-- A commander-legal colorless card. -/
def exCard (i : ℕ) (name : String) : Card :=
  { id := i, name := name, color_identity := [], cmc := 0, price_usd := none,
    legalities := [("commander", "legal")] }

/-- A council state over the default config, as `select_cards_with_council`
would populate it. -/
def exState : CouncilState :=
  { role := "ramp", commander_name := "Cmdr", commander_text := "",
    deck_cards := [], candidates := [exCard 1 "A"], identity := none,
    agent_rankings := [], final_ranking := [],
    config := DEFAULT_CONFIG "gpt-4o-mini" }

/-- An agent fixture with integer-valued numeric fields (so that concrete

instances evaluate inside the kernel). -/

def mkAgent (aid : String) : AgentConfig :=
  { agent_id := aid
    agent_type := "heuristic"
    weight := 1
    temperature := 0
    preferences :=
      { theme_weight := 1, efficiency_weight := 0, budget_weight := 0,
        price_cap_usd := none } }

/-- A configuration whose `agent_ids` subset selector names no configured
agent. -/
def ghostConfig : CouncilConfig :=
  { routing := { strategy := "parallel", agent_ids := ["ghost"] },
    agents := [mkAgent "x"] }

/-- The three selected agents of the debate fixture. -/
def debAgents : List AgentConfig := [mkAgent "a", mkAgent "b", mkAgent "judge"]

/-- A debate-strategy configuration naming `judge` as adjudicator. -/
def debConfig : CouncilConfig :=
  { routing :=
      { strategy := "debate"
        agent_ids := ["a", "b", "judge"]
        debate_adjudicator_id := some "judge" }
    agents := debAgents }

/-! ## Score-map lemmas for the voting aggregator -/

/-- Reading a score map, with the `defaultdict(float)` default `0`. -/
def scoreLookup (m : List (String × ℚ)) (name : String) : ℚ :=
  match dictGet m name with
  | some v => v
  | none => 0

/-- The Borda contribution list: one `(candidate, (total − idx) · weight)`
pair per position of each truncated normalized ranking. -/
def bordaPairs (agent_weights : List (String × ℚ)) (top_k : ℕ)
    (nr : List (String × List String)) : List (String × ℚ) :=
  nr.flatMap (fun p => (p.2.take top_k).enum.map
    (fun q => (q.2, ((p.2.length : ℚ) - (q.1 : ℚ)) * weightOf agent_weights p.1)))

/-- The majority contribution list: one `(candidate, weight)` pair per
entry of each truncated normalized ranking. -/
def majorityPairs (agent_weights : List (String × ℚ)) (top_k : ℕ)
    (nr : List (String × List String)) : List (String × ℚ) :=
  nr.flatMap (fun p => (p.2.take top_k).map
    (fun name => (name, weightOf agent_weights p.1)))

/-- Candidates eligible for a Borda score: everything appearing in some
truncated normalized ranking. -/
def bordaCandidates (rankings : List (String × List String)) (top_k : ℕ) :
    List String :=
  (_normalize_rankings rankings).flatMap (fun p => p.2.take top_k)

/-- The Borda score of the specification: per agent, weight times the sum
of `(len(ranking) − i)` over the positions `i` of the truncated ranking
holding the candidate; summed across agents. -/
def bordaScoreSpec (rankings : List (String × List String))
    (agent_weights : List (String × ℚ)) (top_k : ℕ) (name : String) : ℚ :=
  ((_normalize_rankings rankings).map (fun p =>
    weightOf agent_weights p.1 *
      (((p.2.take top_k).enum.filter (fun q => q.2 = name)).map
        (fun q => ((p.2.length : ℚ) - (q.1 : ℚ)))).sum)).sum

instance : IsTrans (String × ℚ) voteEntryLe := by
  refine ⟨fun a b c hab hbc => ?_⟩
  rcases hab with h1 | ⟨h1e, h1n⟩ <;> rcases hbc with h2 | ⟨h2e, h2n⟩
  · exact Or.inl (h2.trans h1)
  · exact Or.inl (h2e ▸ h1)
  · exact Or.inl (lt_of_lt_of_eq h2 h1e.symm)
  · exact Or.inr ⟨h1e.trans h2e, h1n.trans h2n⟩

instance : IsTotal (String × ℚ) voteEntryLe := by
  refine ⟨fun a b => ?_⟩
  rcases lt_trichotomy a.2 b.2 with h | h | h
  · exact Or.inr (Or.inl h)
  · rcases le_total a.1 b.1 with hn | hn
    · exact Or.inl (Or.inr ⟨h, hn⟩)
    · exact Or.inr (Or.inr ⟨h.symm, hn⟩)
  · exact Or.inl (Or.inl h)

/-! ## Heuristic agent scoring, spec side (claim C9) -/

/-- Clipping to `[0, 1]`, as the spec phrases it. -/
def clip01 (x : ℚ) : ℚ := max 0 (min 1 x)

/-- An optional identity dict that is either absent or non-empty (the only
shapes for which the claim specifies the theme score). -/
def identityTruthy (identity : Option (List (String × ℚ))) : Prop :=
  ∀ l, identity = some l → l ≠ []

/-- The per-candidate score exactly as claim C9 states it: weighted
`(theme·Wt + efficiency·We + budget·Wb)` divided by the weight sum — with
the divisor replaced by 1 only when all three weights are ≤ 0 — plus the
fixed role bonus. -/
def claimHeuristicScore (scoreIdentity : Card → List (String × ℚ) → ℚ)
    (classify : Card → String) (role : String)
    (identity : Option (List (String × ℚ))) (preferences : AgentPreferences)
    (price_cap : ℚ) (card : Card) : ℚ :=
  let theme : ℚ := match identity with
    | none => 1/2
    | some ident => scoreIdentity card ident
  let efficiency := clip01 (1 / (1 + max card.cmc 0))
  let budget : ℚ := match card.price_usd with
    | none => 1/2
    | some price => clip01 (1 - min (price / price_cap) 1)
  let divisor := if preferences.theme_weight ≤ 0
      ∧ preferences.efficiency_weight ≤ 0 ∧ preferences.budget_weight ≤ 0
    then 1
    else preferences.theme_weight + preferences.efficiency_weight
      + preferences.budget_weight
  (theme * preferences.theme_weight
    + efficiency * preferences.efficiency_weight
    + budget * preferences.budget_weight) / divisor
    + (if classify card = role then 1/10 else 0)

/-- The amended per-candidate score: identical to `claimHeuristicScore`
except that the divisor is treated as 1 whenever the *sum* of the three
weights is ≤ 0 (the code's condition), not only when all three are. -/
def amendedHeuristicScore (scoreIdentity : Card → List (String × ℚ) → ℚ)
    (classify : Card → String) (role : String)
    (identity : Option (List (String × ℚ))) (preferences : AgentPreferences)
    (price_cap : ℚ) (card : Card) : ℚ :=
  let theme : ℚ := match identity with
    | none => 1/2
    | some ident => scoreIdentity card ident
  let efficiency := clip01 (1 / (1 + max card.cmc 0))
  let budget : ℚ := match card.price_usd with
    | none => 1/2
    | some price => clip01 (1 - min (price / price_cap) 1)
  let divisor := if preferences.theme_weight + preferences.efficiency_weight
      + preferences.budget_weight ≤ 0
    then 1
    else preferences.theme_weight + preferences.efficiency_weight
      + preferences.budget_weight
  (theme * preferences.theme_weight
    + efficiency * preferences.efficiency_weight
    + budget * preferences.budget_weight) / divisor
    + (if classify card = role then 1/10 else 0)

/-- The ranking claim C9 predicts: sort descending by `claimHeuristicScore`
with ties broken by candidate name ascending. -/
def claimHeuristicRanking (scoreIdentity : Card → List (String × ℚ) → ℚ)
    (classify : Card → String) (candidates : List Card) (role : String)
    (identity : Option (List (String × ℚ))) (preferences : AgentPreferences)
    (price_cap : ℚ) : List String :=
  (List.insertionSort scoredLe (candidates.map (fun card =>
    (claimHeuristicScore scoreIdentity classify role identity preferences
      price_cap card, card.name)))).map Prod.snd

/-- The amended ranking: sort descending by `amendedHeuristicScore` with
ties broken by candidate name ascending. -/
def amendedHeuristicRanking (scoreIdentity : Card → List (String × ℚ) → ℚ)
    (classify : Card → String) (candidates : List Card) (role : String)
    (identity : Option (List (String × ℚ))) (preferences : AgentPreferences)
    (price_cap : ℚ) : List String :=
  (List.insertionSort scoredLe (candidates.map (fun card =>
    (amendedHeuristicScore scoreIdentity classify role identity preferences
      price_cap card, card.name)))).map Prod.snd

/-- Preferences with a mixed-sign weight vector whose sum is ≤ 0 although
not all three weights are. -/
def negPrefs : AgentPreferences :=
  { theme_weight := 1, efficiency_weight := -2, budget_weight := 0,
    price_cap_usd := some 5 }

/-- A classifier placing every card outside the requested role. -/
def exClassifyOther : Card → String := fun _ => "other"

/-- Preferences with all-positive weights and a positive price cap. -/
def posPrefs : AgentPreferences :=
  { theme_weight := 1, efficiency_weight := 1, budget_weight := 1,
    price_cap_usd := some 5 }

/-- No two different role entries share a card identifier. -/
def DisjointRoles (entries : List (String × List Card)) : Prop :=
  entries.Pairwise (fun e1 e2 => ∀ c ∈ e1.2, ∀ c' ∈ e2.2, c.id ≠ c'.id)

/-- The allocator invariant: the recorded role entries are pairwise
disjoint and every recorded identifier is in the global exclusion set. -/
def AllocInv (st : BuildState) : Prop :=
  DisjointRoles st.cards_by_role
    ∧ ∀ e ∈ st.cards_by_role, ∀ c ∈ e.2, c.id ∈ st.selected_ids

/-- A deterministic stand-in for `random.sample` (never reached by the
witnesses: the deck builder always passes an identity). -/
def exSampler : List Card → ℕ → List Card := fun l n => l.take n

/-- A small allocation environment: a corpus holding one ramp card and one
synergy card, a council oracle that returns no ranking, and trivial
black-box scorers. -/
def exEnv : AllocEnv :=
  { classify := exClassify, scoreIdentity := exScoreIdentity,
    sampler := exSampler, rankOracle := fun _ _ => [],
    corpus := [exCard 1 "R1", exCard 3 "S1"], config := {},
    commander_colors := [], identity := [] }

/-- Claim C1: the spec says an unavailable External (llm) ranker is always
recovered locally as an empty ranking and never surfaces an engine-fatal
error; in the code, the llm branch of `_agent_node` subscripts the state
with the key `"XXdeck_cardsXX"`, which is not a key of the council state
dict (the declared field is `deck_cards`), so invoking any llm agent node —
including with no credentials configured — raises `KeyError` before the
credential check can downgrade the agent to the heuristic fallback.  The

theorem exhibits the raised error on the default config's `llm-theme`
agent and records that `deck_cards` is the key actually populated. -/

theorem llm_agent_node_keyerror :
    _agent_node exScoreIdentity exClassify none [] "llm-theme" "llm" exState
      = Except.error "KeyError: XXdeck_cardsXX"
    ∧ stateGetCardList exState "deck_cards" = Except.ok exState.deck_cards
    ∧ llm_rank_candidates none [] = [] := by
  refine ⟨?_, rfl, rfl⟩
  rfl

/-- Claim C3, counterexample: loading an unparseable document does not
return the built-in default configuration (the `yaml.YAMLError` from
`yaml.safe_load` is not caught), and the built-in default does not consist
of a single heuristic agent: it has three agents. -/
theorem config_fallback_counterexample :
    load_council_config "gpt-4o-mini" (fun _ : Unit => DEFAULT_CONFIG "gpt-4o-mini")
      ConfigDocument.unparseable ≠ Except.ok (DEFAULT_CONFIG "gpt-4o-mini")
    ∧ (DEFAULT_CONFIG "gpt-4o-mini").agents.length = 3 := by
  exact ⟨fun h => by simp [load_council_config] at h, rfl⟩

/-- Claim C3, amended: loading an empty or missing configuration document
returns the built-in default configuration; an unparseable document instead
raises the YAML parse error; the built-in default contains three agents, of
which exactly one is heuristic (plus two llm agents), with the default
voting and routing settings, so the empty-document and missing-document
fallbacks are behaviorally identical to the built-in default. -/
theorem config_fallback_amended {Doc : Type} (parse : Doc → CouncilConfig)
    (model : String) :
    load_council_config model parse ConfigDocument.missing
        = Except.ok (DEFAULT_CONFIG model)
    ∧ load_council_config model parse ConfigDocument.empty
        = Except.ok (DEFAULT_CONFIG model)
    ∧ load_council_config model parse ConfigDocument.unparseable
        = Except.error "yaml.YAMLError"
    ∧ (DEFAULT_CONFIG model).agents.length = 3
    ∧ ((DEFAULT_CONFIG model).agents.filter
        (fun a => a.agent_type = "heuristic")).length = 1
    ∧ (DEFAULT_CONFIG model).voting = {}
    ∧ (DEFAULT_CONFIG model).routing = {} := by
  refine ⟨rfl, rfl, rfl, rfl, ?_, rfl, rfl⟩
  simp [DEFAULT_CONFIG]

/-- Projection facts for the graph-building primitives. -/
theorem add_node_nodes (g : StateGraph) (n : String) :
    (add_node g n).nodes = g.nodes ++ [n] := rfl

/-- Adding an edge leaves the node list unchanged. -/
theorem add_edge_nodes (g : StateGraph) (a b : String) :
    (add_edge g a b).nodes = g.nodes := rfl

/-- Setting the entry point leaves the node list unchanged. -/
theorem set_entry_point_nodes (g : StateGraph) (n : String) :
    (set_entry_point g n).nodes = g.nodes := rfl

/-- Nodes accumulated by the `_build_parallel` agent fold: one
`agent_<id>` node per agent, in order, after whatever the seed graph held. -/
theorem build_parallel_fold_nodes (agents : List AgentConfig) (g : StateGraph) :
    (agents.foldl (fun g agent =>
      let node_id := "agent_" ++ agent.agent_id
      add_edge (add_edge (add_node g node_id) "start" node_id) node_id
        "aggregate") g).nodes
    = g.nodes ++ agents.map (fun agent => "agent_" ++ agent.agent_id) := by
  induction agents generalizing g with
  | nil => simp
  | cons a rest ih =>
      rw [List.foldl_cons, ih]
      simp [add_edge, add_node]

/-- Claim C10: when `routing.agent_ids` is non-empty but resolves to no
configured agent, `build_graph` falls back to building the graph over all
configured agents; in particular under the (default) parallel strategy the
graph contains an agent node for every configured agent. -/
theorem routing_subset_empty_fallback (config : CouncilConfig)
    (h1 : config.routing.agent_ids ≠ [])
    (h2 : _resolve_agents config = []) :
    build_graph config
      = _strategy_builder config.routing.strategy config config.agents
    ∧ (config.routing.strategy = "parallel" →
        ∀ a ∈ config.agents,
          ("agent_" ++ a.agent_id) ∈ (build_graph config).nodes) := by
  have hbg : build_graph config
      = _strategy_builder config.routing.strategy config config.agents := by
    simp [build_graph, h2]
  refine ⟨hbg, fun hs a ha => ?_⟩
  rw [hbg, hs]
  show _ ∈ (_build_parallel config config.agents).nodes
  simp only [_build_parallel]
  rw [add_edge_nodes, set_entry_point_nodes, build_parallel_fold_nodes]
  exact List.mem_append_right _ (List.mem_map_of_mem _ ha)

/-- Witness for claim C10 at a concrete configuration. -/
theorem routing_subset_empty_fallback_witness :
    (ghostConfig.routing.agent_ids ≠ [] ∧ _resolve_agents ghostConfig = [])
    ∧ ("agent_" ++ (mkAgent "x").agent_id) ∈ (build_graph ghostConfig).nodes := by
  refine ⟨⟨by decide, by decide⟩, ?_⟩
  exact (routing_subset_empty_fallback ghostConfig (by decide) (by decide)).2
    rfl (mkAgent "x") (List.Mem.head _)

/-- Claim C7: the debate adjudicator is resolved in order — the agent named
by `debate_adjudicator_id` when that (non-empty, as every loaded agent id
is) identifier names a selected agent; otherwise the last of the resolved
list when more than two agents are selected; otherwise none.  For the
concrete three-agent configuration `a, b, judge` with
`debate_adjudicator_id = "judge"`, the built graph has nodes for all three
agents, edges from `a` and `b` into `judge`, and an edge from `judge` into
the aggregation node. -/
theorem debate_adjudicator_resolution :
    (∀ (config : CouncilConfig) (agents : List AgentConfig) (aid : String)
        (adj : AgentConfig),
        config.routing.debate_adjudicator_id = some aid → aid ≠ "" →
        agents.find? (fun a => a.agent_id = aid) = some adj →
        debateAdjudicator config agents = some adj)
    ∧ (∀ (config : CouncilConfig) (agents : List AgentConfig),
        (∀ aid, config.routing.debate_adjudicator_id = some aid → aid ≠ "" →
          agents.find? (fun a => a.agent_id = aid) = none) →
        2 < agents.length →
        debateAdjudicator config agents = agents.getLast?)
    ∧ (∀ (config : CouncilConfig) (agents : List AgentConfig),
        (∀ aid, config.routing.debate_adjudicator_id = some aid → aid ≠ "" →
          agents.find? (fun a => a.agent_id = aid) = none) →
        agents.length ≤ 2 →
        debateAdjudicator config agents = none)
    ∧ ("agent_a" ∈ (build_graph debConfig).nodes
      ∧ "agent_b" ∈ (build_graph debConfig).nodes
      ∧ "agent_judge" ∈ (build_graph debConfig).nodes
      ∧ ("agent_a", "agent_judge") ∈ (build_graph debConfig).edges
      ∧ ("agent_b", "agent_judge") ∈ (build_graph debConfig).edges
      ∧ ("agent_judge", "aggregate") ∈ (build_graph debConfig).edges) := by
  refine ⟨?_, ?_, ?_, ?_⟩
  · intro config agents aid adj h he hf
    unfold debateAdjudicator
    rw [h]
    simp [he, hf]
  · intro config agents hno hlen
    unfold debateAdjudicator
    cases hid : config.routing.debate_adjudicator_id with
    | none => simp [hlen]
    | some aid =>
        by_cases he : aid = ""
        · simp [he, hlen]
        · simp [he, hno aid hid he, hlen]
  · intro config agents hno hlen
    unfold debateAdjudicator
    have hnlt : ¬ 2 < agents.length := Nat.not_lt.mpr hlen
    cases hid : config.routing.debate_adjudicator_id with
    | none => simp [hnlt]
    | some aid =>
        by_cases he : aid = ""
        · simp [he, hnlt]
        · simp [he, hno aid hid he, hnlt]
  · exact ⟨by decide, by decide, by decide, by decide, by decide, by decide⟩

/-- Witness for claim C7: the resolution rule applied to the concrete
debate fixture picks the named `judge` agent. -/
theorem debate_adjudicator_resolution_witness :
    (debConfig.routing.debate_adjudicator_id = some "judge"
      ∧ ("judge" : String) ≠ ""
      ∧ debAgents.find? (fun a => a.agent_id = "judge") = some (mkAgent "judge"))
    ∧ debateAdjudicator debConfig debAgents = some (mkAgent "judge") := by
  refine ⟨⟨rfl, by decide, by decide⟩, ?_⟩
  exact debate_adjudicator_resolution.1 debConfig debAgents "judge"
    (mkAgent "judge") rfl (by decide) (by decide)

/-- The candidate-pool scan with a positive remaining budget collects
exactly the first `limit - acc.length` eligible cards of the remaining
window, after the already-collected prefix. -/
theorem poolScan_eq (classify : Card → String) (role : String)
    (colors : List String) (limit : ℕ) :
    ∀ (l acc : List Card), acc.length < limit →
    poolScan classify role colors limit l acc
      = acc.reverse ++ (l.filter
          (fun card => poolEligible classify role colors card)).take
          (limit - acc.length) := by
  intro l
  induction l with
  | nil => intro acc _; simp [poolScan]
  | cons c rest ih =>
      intro acc hacc
      by_cases hel : poolEligible classify role colors c
      · rw [poolScan, if_pos hel]
        by_cases hbr : limit ≤ (c :: acc).length
        · rw [if_pos hbr]
          have hlim : limit - acc.length = 1 := by
            simp only [List.length_cons] at hbr
            omega
          simp [hel, hlim]
        · rw [if_neg hbr]
          have hlt : (c :: acc).length < limit := Nat.lt_of_not_le hbr
          rw [ih (c :: acc) hlt]
          have hstep : limit - acc.length = (limit - (c :: acc).length) + 1 := by
            simp only [List.length_cons]
            omega
          simp [hel, hstep, List.take_succ_cons]
      · rw [poolScan, if_neg hel, ih acc hacc]
        simp [hel]

/-- Claim C8 (amended: for positive `limit`): the candidate-pool builder
scans only the first 5000 non-excluded corpus records, keeps exactly the
cards that are commander-legal, color-compatible, non-excluded and
classified into the requested role, and stops at `limit` collected cards,
so its output is the `limit`-prefix of the eligible cards in the window
and in particular has length at most `limit`. -/
theorem candidate_pool_spec (classify : Card → String) (corpus : List Card)
    (role : String) (colors : List String) (exclude_ids : List ℕ)
    (limit : ℕ) (h : 1 ≤ limit) :
    _build_candidate_pool classify corpus role colors exclude_ids limit
      = (((if exclude_ids.isEmpty then corpus
            else corpus.filter (fun card => card.id ∉ exclude_ids)).take
          5000).filter
          (fun card => poolEligible classify role colors card)).take limit
    ∧ (_build_candidate_pool classify corpus role colors exclude_ids
        limit).length ≤ limit
    ∧ ∀ c ∈ _build_candidate_pool classify corpus role colors exclude_ids
        limit, poolEligible classify role colors c ∧ c.id ∉ exclude_ids := by
  have heq : _build_candidate_pool classify corpus role colors exclude_ids limit
      = (((if exclude_ids.isEmpty then corpus
            else corpus.filter (fun card => card.id ∉ exclude_ids)).take
          5000).filter
          (fun card => poolEligible classify role colors card)).take limit := by
    unfold _build_candidate_pool
    rw [poolScan_eq classify role colors limit _ [] (by simpa using h)]
    simp
  refine ⟨heq, ?_, ?_⟩
  · rw [heq]
    simpa using List.length_take_le limit _
  · intro c hc
    rw [heq] at hc
    have hmemf := (List.take_sublist _ _).subset hc
    have hmem := List.mem_filter.mp hmemf
    refine ⟨by simpa using hmem.2, ?_⟩
    have hwin := (List.take_sublist _ _).subset hmem.1
    by_cases hemp : exclude_ids.isEmpty
    · have : exclude_ids = [] := List.isEmpty_iff.mp hemp
      simp [this]
    · rw [if_neg hemp] at hwin
      have := List.mem_filter.mp hwin
      simpa using this.2

/-- Claim C8, counterexample: with `limit = 0` the early-exit test runs
only after a card has been appended, so a single eligible card is returned
and the output length exceeds `limit`. -/
theorem candidate_pool_limit_zero_counterexample :
    _build_candidate_pool exClassify [exCard 1 "A"] "ramp" [] [] 0
      = [exCard 1 "A"]
    ∧ ¬ ((_build_candidate_pool exClassify [exCard 1 "A"] "ramp" [] []
        0).length ≤ 0) := by
  exact ⟨by decide, by decide⟩

/-- Witness for claim C8 at a concrete two-card corpus and `limit = 1`. -/
theorem candidate_pool_spec_witness :
    (1 ≤ 1)
    ∧ (_build_candidate_pool exClassify [exCard 1 "A", exCard 2 "B"] "ramp"
        [] [] 1).length ≤ 1 :=
  ⟨by decide, (candidate_pool_spec exClassify [exCard 1 "A", exCard 2 "B"]
    "ramp" [] [] 1 (by decide)).2.1⟩

/-- Model of `addScore` updates exactly the requested key. -/
theorem addScore_lookup (m : List (String × ℚ)) (n x : String) (v : ℚ) :
    scoreLookup (addScore m n v) x
      = scoreLookup m x + (if n = x then v else 0) := by
  induction m with
  | nil =>
      by_cases hx : n = x
      · simp [addScore, scoreLookup, dictGet, hx]
      · simp [addScore, scoreLookup, dictGet, hx, Ne.symm hx]
  | cons p rest ih =>
      by_cases hk : p.1 = n
      · rw [addScore]
        simp only [hk, if_pos rfl]
        by_cases hx : n = x
        · subst hx
          simp [scoreLookup, dictGet, hk]
        · have hpx : ¬ p.1 = x := hk ▸ hx
          simp [scoreLookup, dictGet, hk, hpx, hx]
      · rw [addScore]
        simp only [if_neg hk]
        by_cases hpx : p.1 = x
        · have hnx : ¬ n = x := fun h => hk (h ▸ hpx)
          simp [scoreLookup, dictGet, hpx, hnx]
        · have h1 : scoreLookup ((p.1, p.2) :: addScore rest n v) x
              = scoreLookup (addScore rest n v) x := by
            simp [scoreLookup, dictGet, hpx]
          have h2 : scoreLookup (p :: rest) x = scoreLookup rest x := by
            simp [scoreLookup, dictGet, hpx]
          rw [h1, h2, ih]

/-- Model of `addScore` either keeps the key list (when the key is present) or
appends the new key. -/
theorem addScore_keys (m : List (String × ℚ)) (n : String) (v : ℚ) :
    (addScore m n v).map Prod.fst
      = if n ∈ m.map Prod.fst then m.map Prod.fst
        else m.map Prod.fst ++ [n] := by
  induction m with
  | nil => simp [addScore]
  | cons p rest ih =>
      by_cases hk : p.1 = n
      · rw [addScore]
        simp [hk]
      · rw [addScore]
        simp only [if_neg hk, List.map_cons, ih]
        by_cases hmem : n ∈ rest.map Prod.fst
        · simp [hmem, Ne.symm hk]
        · simp [hmem, Ne.symm hk]

/-- Key membership after `addScore`. -/
theorem addScore_keys_mem (m : List (String × ℚ)) (n x : String) (v : ℚ) :
    x ∈ (addScore m n v).map Prod.fst ↔ x ∈ m.map Prod.fst ∨ x = n := by
  rw [addScore_keys]
  by_cases hmem : n ∈ m.map Prod.fst
  · simp only [if_pos hmem]
    constructor
    · exact fun h => Or.inl h
    · rintro (h | rfl)
      · exact h
      · exact hmem
  · simp [if_neg hmem]

/-- Model of `addScore` preserves distinctness of keys. -/
theorem addScore_keys_nodup (m : List (String × ℚ)) (n : String) (v : ℚ)
    (h : (m.map Prod.fst).Nodup) : ((addScore m n v).map Prod.fst).Nodup := by
  rw [addScore_keys]
  by_cases hmem : n ∈ m.map Prod.fst
  · simpa [hmem] using h
  · rw [if_neg hmem]
    rw [← List.singleton_append, List.nodup_append_comm, List.singleton_append]
    exact List.nodup_cons.mpr ⟨hmem, h⟩

/-- Folding a contribution list adds, per key, the sum of its matching
increments. -/
theorem addMany_lookup (contribs : List (String × ℚ)) :
    ∀ (m : List (String × ℚ)) (x : String),
    scoreLookup (addMany m contribs) x
      = scoreLookup m x
        + (contribs.map (fun p => if p.1 = x then p.2 else 0)).sum := by
  induction contribs with
  | nil => intro m x; simp [addMany]
  | cons p rest ih =>
      intro m x
      have hstep : addMany m (p :: rest) = addMany (addScore m p.1 p.2) rest := rfl
      rw [hstep, ih, addScore_lookup]
      simp [add_assoc]

/-- Key membership after folding a contribution list. -/
theorem addMany_keys_mem (contribs : List (String × ℚ)) :
    ∀ (m : List (String × ℚ)) (x : String),
    x ∈ (addMany m contribs).map Prod.fst
      ↔ x ∈ m.map Prod.fst ∨ x ∈ contribs.map Prod.fst := by
  induction contribs with
  | nil => intro m x; simp [addMany]
  | cons p rest ih =>
      intro m x
      have hstep : addMany m (p :: rest) = addMany (addScore m p.1 p.2) rest := rfl
      rw [hstep, ih, addScore_keys_mem]
      simp only [List.map_cons, List.mem_cons]
      tauto

/-- Folding contributions preserves distinctness of keys. -/
theorem addMany_keys_nodup (contribs : List (String × ℚ)) :
    ∀ (m : List (String × ℚ)), (m.map Prod.fst).Nodup →
    ((addMany m contribs).map Prod.fst).Nodup := by
  induction contribs with
  | nil => intro m h; simpa [addMany] using h
  | cons p rest ih =>
      intro m h
      exact ih _ (addScore_keys_nodup m p.1 p.2 h)

/-- Each `addScore` grows the map by at most one entry. -/
theorem addScore_length_le (m : List (String × ℚ)) (n : String) (v : ℚ) :
    (addScore m n v).length ≤ m.length + 1 := by
  have := congrArg List.length (addScore_keys m n v)
  simp only [List.length_map] at this
  rw [this]
  by_cases hmem : n ∈ m.map Prod.fst
  · simp [hmem]
  · simp [hmem]

/-- The folded map has at most one entry per contribution plus the seed. -/
theorem addMany_length_le (contribs : List (String × ℚ)) :
    ∀ (m : List (String × ℚ)),
    (addMany m contribs).length ≤ m.length + contribs.length := by
  induction contribs with
  | nil => intro m; simp [addMany]
  | cons p rest ih =>
      intro m
      have hstep : addMany m (p :: rest) = addMany (addScore m p.1 p.2) rest := rfl
      rw [hstep]
      calc (addMany (addScore m p.1 p.2) rest).length
          ≤ (addScore m p.1 p.2).length + rest.length := ih _
        _ ≤ (m.length + 1) + rest.length := by
            have := addScore_length_le m p.1 p.2
            omega
        _ = m.length + (p :: rest).length := by simp only [List.length_cons]; omega

/-- In a score map with distinct keys every entry holds the value that
lookup returns for its key. -/
theorem scoreLookup_of_mem (m : List (String × ℚ))
    (h : (m.map Prod.fst).Nodup) :
    ∀ p ∈ m, scoreLookup m p.1 = p.2 := by
  induction m with
  | nil => intro p hp; cases hp
  | cons q rest ih =>
      intro p hp
      rcases List.mem_cons.mp hp with rfl | hp'
      · simp [scoreLookup, dictGet]
      · have hq : ¬ q.1 = p.1 := by
          intro hqp
          have hkey : p.1 ∈ rest.map Prod.fst := List.mem_map_of_mem _ hp'
          rw [List.map_cons, List.nodup_cons] at h
          exact h.1 (hqp ▸ hkey)
        have : scoreLookup (q :: rest) p.1 = scoreLookup rest p.1 := by
          simp [scoreLookup, dictGet, hq]
        rw [this]
        exact ih (by
          rw [List.map_cons, List.nodup_cons] at h
          exact h.2) p hp'

/-- Folding a concatenation of contribution lists is folding them in
sequence. -/
theorem addMany_append (m : List (String × ℚ))
    (l1 l2 : List (String × ℚ)) :
    addMany m (l1 ++ l2) = addMany (addMany m l1) l2 := by
  unfold addMany
  rw [List.foldl_append]

/-- The Borda score fold is the fold of its flattened contribution list. -/
theorem borda_fold_eq_addMany (agent_weights : List (String × ℚ))
    (top_k : ℕ) (nr : List (String × List String)) :
    ∀ m : List (String × ℚ),
    nr.foldl (fun m p =>
      (p.2.take top_k).enum.foldl
        (fun m' q => addScore m' q.2
          (((p.2.length : ℚ) - (q.1 : ℚ)) * weightOf agent_weights p.1)) m) m
    = addMany m (bordaPairs agent_weights top_k nr) := by
  induction nr with
  | nil => intro m; simp [bordaPairs, addMany]
  | cons p rest ih =>
      intro m
      rw [List.foldl_cons, ih]
      show addMany _ _ = addMany m (bordaPairs agent_weights top_k (p :: rest))
      have hinner : (p.2.take top_k).enum.foldl
          (fun m' q => addScore m' q.2
            (((p.2.length : ℚ) - (q.1 : ℚ)) * weightOf agent_weights p.1)) m
          = addMany m ((p.2.take top_k).enum.map
            (fun q => (q.2,
              ((p.2.length : ℚ) - (q.1 : ℚ)) * weightOf agent_weights p.1))) := by
        rw [addMany, List.foldl_map]
      rw [hinner]
      have hsplit : bordaPairs agent_weights top_k (p :: rest)
          = (p.2.take top_k).enum.map
            (fun q => (q.2,
              ((p.2.length : ℚ) - (q.1 : ℚ)) * weightOf agent_weights p.1))
            ++ bordaPairs agent_weights top_k rest := by
        simp [bordaPairs]
      rw [hsplit, addMany_append]

/-- The majority score fold is the fold of its flattened contribution
list. -/
theorem majority_fold_eq_addMany (agent_weights : List (String × ℚ))
    (top_k : ℕ) (nr : List (String × List String)) :
    ∀ m : List (String × ℚ),
    nr.foldl (fun m p =>
      (p.2.take top_k).foldl
        (fun m' name => addScore m' name (weightOf agent_weights p.1)) m) m
    = addMany m (majorityPairs agent_weights top_k nr) := by
  induction nr with
  | nil => intro m; simp [majorityPairs, addMany]
  | cons p rest ih =>
      intro m
      rw [List.foldl_cons, ih]
      have hinner : (p.2.take top_k).foldl
          (fun m' name => addScore m' name (weightOf agent_weights p.1)) m
          = addMany m ((p.2.take top_k).map
            (fun name => (name, weightOf agent_weights p.1))) := by
        rw [addMany, List.foldl_map]
      rw [hinner]
      have hsplit : majorityPairs agent_weights top_k (p :: rest)
          = (p.2.take top_k).map
            (fun name => (name, weightOf agent_weights p.1))
            ++ majorityPairs agent_weights top_k rest := by
        simp [majorityPairs]
      rw [hsplit, addMany_append]

/-- Model of `borda_count` in closed form: sort the folded contribution map. -/
theorem borda_count_eq (rankings : List (String × List String))
    (agent_weights : List (String × ℚ)) (top_k : ℕ) :
    borda_count rankings agent_weights top_k
      = (List.insertionSort voteEntryLe
          (addMany [] (bordaPairs agent_weights top_k
            (_normalize_rankings rankings)))).map Prod.fst := by
  simp only [borda_count]
  rw [borda_fold_eq_addMany]

/-- Model of `majority_vote` in closed form: sort the folded contribution map. -/
theorem majority_vote_eq (rankings : List (String × List String))
    (agent_weights : List (String × ℚ)) (top_k : ℕ) :
    majority_vote rankings agent_weights top_k
      = (List.insertionSort voteEntryLe
          (addMany [] (majorityPairs agent_weights top_k
            (_normalize_rankings rankings)))).map Prod.fst := by
  simp only [majority_vote]
  rw [majority_fold_eq_addMany]

/-- The Borda contribution list has at most `top_k` entries per agent. -/
theorem bordaPairs_length_le (agent_weights : List (String × ℚ)) (top_k : ℕ)
    (nr : List (String × List String)) :
    (bordaPairs agent_weights top_k nr).length ≤ nr.length * top_k := by
  unfold bordaPairs
  rw [List.length_flatMap]
  calc (nr.map (fun p => ((p.2.take top_k).enum.map
          (fun q => (q.2, ((p.2.length : ℚ) - (q.1 : ℚ))
            * weightOf agent_weights p.1))).length)).sum
      ≤ (nr.map (fun p => ((p.2.take top_k).enum.map
          (fun q => (q.2, ((p.2.length : ℚ) - (q.1 : ℚ))
            * weightOf agent_weights p.1))).length)).length * top_k := by
        refine List.sum_le_card_nsmul _ _ ?_
        intro x hx
        rcases List.mem_map.mp hx with ⟨p, _, rfl⟩
        simpa [List.length_take] using Nat.min_le_left top_k p.2.length
    _ = nr.length * top_k := by rw [List.length_map]

/-- The majority contribution list has at most `top_k` entries per agent. -/
theorem majorityPairs_length_le (agent_weights : List (String × ℚ))
    (top_k : ℕ) (nr : List (String × List String)) :
    (majorityPairs agent_weights top_k nr).length ≤ nr.length * top_k := by
  unfold majorityPairs
  rw [List.length_flatMap]
  calc (nr.map (fun p => ((p.2.take top_k).map
          (fun name => (name, weightOf agent_weights p.1))).length)).sum
      ≤ (nr.map (fun p => ((p.2.take top_k).map
          (fun name => (name, weightOf agent_weights p.1))).length)).length
          * top_k := by
        refine List.sum_le_card_nsmul _ _ ?_
        intro x hx
        rcases List.mem_map.mp hx with ⟨p, _, rfl⟩
        simpa [List.length_take] using Nat.min_le_left top_k p.2.length
    _ = nr.length * top_k := by rw [List.length_map]

/-- Normalization never adds agents. -/
theorem normalize_rankings_length_le (rankings : List (String × List String)) :
    (_normalize_rankings rankings).length ≤ rankings.length := by
  unfold _normalize_rankings
  rw [List.length_map]
  exact List.length_filter_le _ _

/-- Claim C2, amended: the aggregated ranking of either strategy has
length at most (number of agents in the rankings map) · `top_k` — the
`top_k` truncation applies to each agent's input ranking, and the final
sorted score list is not itself truncated, so the output can exceed
`top_k` as soon as two agents' truncated rankings differ. -/
theorem aggregated_length_le_agents_mul_top_k
    (rankings : List (String × List String))
    (agent_weights : List (String × ℚ)) (top_k : ℕ) :
    (borda_count rankings agent_weights top_k).length
      ≤ rankings.length * top_k
    ∧ (majority_vote rankings agent_weights top_k).length
      ≤ rankings.length * top_k := by
  constructor
  · rw [borda_count_eq, List.length_map,
      (List.perm_insertionSort voteEntryLe _).length_eq]
    calc (addMany [] (bordaPairs agent_weights top_k
          (_normalize_rankings rankings))).length
        ≤ [].length + (bordaPairs agent_weights top_k
            (_normalize_rankings rankings)).length := addMany_length_le _ _
      _ ≤ (_normalize_rankings rankings).length * top_k := by
          simpa using bordaPairs_length_le agent_weights top_k _
      _ ≤ rankings.length * top_k :=
          Nat.mul_le_mul_right _ (normalize_rankings_length_le rankings)
  · rw [majority_vote_eq, List.length_map,
      (List.perm_insertionSort voteEntryLe _).length_eq]
    calc (addMany [] (majorityPairs agent_weights top_k
          (_normalize_rankings rankings))).length
        ≤ [].length + (majorityPairs agent_weights top_k
            (_normalize_rankings rankings)).length := addMany_length_le _ _
      _ ≤ (_normalize_rankings rankings).length * top_k := by
          simpa using majorityPairs_length_le agent_weights top_k _
      _ ≤ rankings.length * top_k :=
          Nat.mul_le_mul_right _ (normalize_rankings_length_le rankings)

/-- Claim C2, counterexample: with two agents ranking distinct candidates
and `top_k = 1 > 0`, Borda aggregation returns both candidates, so the
aggregated ranking is longer than `top_k`. -/
theorem aggregated_length_exceeds_top_k :
    0 < 1
    ∧ borda_count [("a", ["X"]), ("b", ["Y"])] [("a", 1), ("b", 1)] 1
        = ["X", "Y"]
    ∧ ¬ ((borda_count [("a", ["X"]), ("b", ["Y"])] [("a", 1), ("b", 1)]
        1).length ≤ 1) := by
  have heval : borda_count [("a", ["X"]), ("b", ["Y"])] [("a", 1), ("b", 1)] 1
      = ["X", "Y"] := by
    simp [borda_count, _normalize_rankings, addScore, weightOf, dictGet,
      List.insertionSort, List.orderedInsert, voteEntryLe, List.enum,
      String.le_iff_toList_le, String.lt_iff_toList_lt]
    norm_num
    decide
  exact ⟨by decide, heval, by rw [heval]; decide⟩

/-- Summing an `if`-guarded map is summing over the filtered list. -/
theorem sum_map_ite_filter {α : Type} (L : List α) (P : α → Prop)
    [DecidablePred P] (f : α → ℚ) :
    (L.map (fun a => if P a then f a else 0)).sum
      = ((L.filter (fun a => P a)).map f).sum := by
  induction L with
  | nil => simp
  | cons a rest ih => by_cases h : P a <;> simp [h, ih]

/-- The per-candidate total of the Borda contribution list is the spec's
per-agent weighted positional sum. -/
theorem bordaPairs_sum (agent_weights : List (String × ℚ)) (top_k : ℕ)
    (nr : List (String × List String)) (x : String) :
    ((bordaPairs agent_weights top_k nr).map
      (fun p => if p.1 = x then p.2 else 0)).sum
      = (nr.map (fun p =>
          weightOf agent_weights p.1 *
            (((p.2.take top_k).enum.filter (fun q => q.2 = x)).map
              (fun q => ((p.2.length : ℚ) - (q.1 : ℚ)))).sum)).sum := by
  induction nr with
  | nil => simp [bordaPairs]
  | cons p rest ih =>
      have hsplit : bordaPairs agent_weights top_k (p :: rest)
          = (p.2.take top_k).enum.map
            (fun q => (q.2,
              ((p.2.length : ℚ) - (q.1 : ℚ)) * weightOf agent_weights p.1))
            ++ bordaPairs agent_weights top_k rest := by
        simp [bordaPairs]
      rw [hsplit, List.map_append, List.sum_append, ih, List.map_cons,
        List.sum_cons]
      congr 1
      rw [List.map_map]
      have hcomp : ((fun p' : String × ℚ => if p'.1 = x then p'.2 else 0) ∘
          (fun q : ℕ × String => (q.2,
            ((p.2.length : ℚ) - (q.1 : ℚ)) * weightOf agent_weights p.1)))
          = fun q : ℕ × String => if q.2 = x then
              ((p.2.length : ℚ) - (q.1 : ℚ)) * weightOf agent_weights p.1
            else 0 := by
        funext q
        by_cases h : q.2 = x <;> simp [h]
      rw [hcomp, sum_map_ite_filter ((p.2.take top_k).enum)
        (fun q => q.2 = x)
        (fun q => ((p.2.length : ℚ) - (q.1 : ℚ)) * weightOf agent_weights p.1)]
      rw [List.sum_map_mul_right, mul_comm]

/-- Looking up a candidate in the folded Borda score map gives the spec
score. -/
theorem scoreLookup_bordaPairs (agent_weights : List (String × ℚ))
    (top_k : ℕ) (rankings : List (String × List String)) (x : String) :
    scoreLookup (addMany [] (bordaPairs agent_weights top_k
      (_normalize_rankings rankings))) x
      = bordaScoreSpec rankings agent_weights top_k x := by
  rw [addMany_lookup, bordaPairs_sum]
  simp [scoreLookup, dictGet, bordaScoreSpec]

/-- The keys of the Borda contribution list are the truncated normalized
rankings, flattened. -/
theorem bordaPairs_keys (agent_weights : List (String × ℚ)) (top_k : ℕ)
    (nr : List (String × List String)) :
    (bordaPairs agent_weights top_k nr).map Prod.fst
      = nr.flatMap (fun p => p.2.take top_k) := by
  unfold bordaPairs
  rw [List.map_flatMap]
  refine List.flatMap_congr ?_
  intro p _
  rw [List.map_map]
  exact List.enum_map_snd _

/-- Claim C5: Borda gives position `i` (0-based) of each agent's truncated
ranking the contribution `(len(ranking) − i) · weight[agent]`, sums across
agents, and sorts descending by score with ties broken by candidate
identifier ascending — the output consists of exactly the candidates of the
truncated rankings, without duplicates, ordered by the spec score; and on
the fixed two-agent example the result is exactly `["X", "Y", "Z"]` with
`X` and `Y` tied at score 5. -/
theorem borda_spec_and_instance :
    (∀ (rankings : List (String × List String))
      (agent_weights : List (String × ℚ)) (top_k : ℕ),
      (borda_count rankings agent_weights top_k).Nodup
      ∧ (∀ n, n ∈ borda_count rankings agent_weights top_k
          ↔ n ∈ bordaCandidates rankings top_k)
      ∧ (borda_count rankings agent_weights top_k).Pairwise (fun a b =>
          bordaScoreSpec rankings agent_weights top_k b
            < bordaScoreSpec rankings agent_weights top_k a
          ∨ (bordaScoreSpec rankings agent_weights top_k a
              = bordaScoreSpec rankings agent_weights top_k b ∧ a ≤ b)))
    ∧ borda_count [("a", ["X", "Y", "Z"]), ("b", ["Y", "X", "Z"])]
        [("a", 1), ("b", 1)] 3 = ["X", "Y", "Z"]
    ∧ bordaScoreSpec [("a", ["X", "Y", "Z"]), ("b", ["Y", "X", "Z"])]
        [("a", 1), ("b", 1)] 3 "X" = 5
    ∧ bordaScoreSpec [("a", ["X", "Y", "Z"]), ("b", ["Y", "X", "Z"])]
        [("a", 1), ("b", 1)] 3 "Y" = 5 := by
  refine ⟨?_, ?_, ?_, ?_⟩
  · intro R W k
    have hmap := borda_count_eq R W k
    set scores := addMany [] (bordaPairs W k (_normalize_rankings R))
      with hscores
    have hkeysnodup : (scores.map Prod.fst).Nodup :=
      addMany_keys_nodup _ [] (by simp)
    have hperm : List.Perm (List.insertionSort voteEntryLe scores) scores :=
      List.perm_insertionSort _ _
    refine ⟨?_, ?_, ?_⟩
    · rw [hmap]
      exact ((hperm.map Prod.fst).nodup_iff).mpr hkeysnodup
    · intro n
      rw [hmap]
      rw [List.Perm.mem_iff (hperm.map Prod.fst), addMany_keys_mem,
        bordaPairs_keys]
      simp [bordaCandidates]
    · have hsorted : (List.insertionSort voteEntryLe scores).Pairwise
          voteEntryLe := List.sorted_insertionSort voteEntryLe scores
      have hcoh : ∀ p ∈ List.insertionSort voteEntryLe scores,
          p.2 = bordaScoreSpec R W k p.1 := by
        intro p hp
        have hp' : p ∈ scores := hperm.subset hp
        rw [← scoreLookup_of_mem scores hkeysnodup p hp', hscores,
          scoreLookup_bordaPairs]
      rw [hmap, List.pairwise_map]
      refine hsorted.imp_of_mem ?_
      intro a b ha hb hab
      rw [← hcoh a ha, ← hcoh b hb]
      exact hab
  · simp [borda_count, _normalize_rankings, addScore, weightOf, dictGet,
      List.insertionSort, List.orderedInsert, List.enum, List.enumFrom]
    norm_num
    simp +decide [voteEntryLe, String.le_iff_toList_le,
      String.lt_iff_toList_lt]
  · simp [bordaScoreSpec, _normalize_rankings, weightOf, dictGet, List.enum,
      List.enumFrom]
    norm_num
  · simp [bordaScoreSpec, _normalize_rankings, weightOf, dictGet, List.enum,
      List.enumFrom]
    norm_num

/-- The spec's clip agrees with the code's `_normalize_score`. -/
theorem clip01_eq_normalize (x : ℚ) : clip01 x = _normalize_score x := by
  unfold clip01 _normalize_score
  by_cases h1 : x < 0
  · rw [if_pos h1, min_eq_right (le_trans h1.le zero_le_one),
      max_eq_left h1.le]
  · rw [if_neg h1]
    by_cases h2 : 1 < x
    · rw [if_pos h2, min_eq_left h2.le, max_eq_right zero_le_one]
    · rw [if_neg h2, min_eq_right (not_lt.mp h2), max_eq_right (not_lt.mp h1)]

/-- Claim C9, amended: for a supplied positive price cap and an identity
that is absent or non-empty, the heuristic agent's output is exactly the
deterministic ranking by the claim's weighted score — with the divisor
treated as 1 whenever the weight sum is ≤ 0, not only when all three
weights are ≤ 0. -/
theorem heuristic_rank_spec (scoreIdentity : Card → List (String × ℚ) → ℚ)
    (classify : Card → String) (candidates : List Card) (role : String)
    (identity : Option (List (String × ℚ))) (preferences : AgentPreferences)
    (price_cap : ℚ) (hid : identityTruthy identity)
    (hcap : preferences.price_cap_usd = some price_cap)
    (hpos : 0 < price_cap) :
    heuristic_rank_candidates scoreIdentity classify candidates role identity
      preferences
      = amendedHeuristicRanking scoreIdentity classify candidates role
          identity preferences price_cap := by
  have hne : price_cap ≠ 0 := ne_of_gt hpos
  have hnle : ¬ price_cap ≤ 0 := not_le.mpr hpos
  simp only [heuristic_rank_candidates, amendedHeuristicRanking]
  congr 1
  congr 1
  refine List.map_congr_left ?_
  intro card _
  unfold amendedHeuristicScore _price_score
  simp only [clip01_eq_normalize]
  cases hi : identity with
  | none =>
      cases hp : card.price_usd with
      | none => simp [hcap, hne, hnle]
      | some price => simp [hcap, hne, hnle]
  | some l =>
      have hl : l ≠ [] := hid l hi
      cases hp : card.price_usd with
      | none => simp [hcap, hne, hnle, List.isEmpty_iff, hl]
      | some price => simp [hcap, hne, hnle, List.isEmpty_iff, hl]

/-- Claim C9, counterexample: with weights `(1, −2, 0)` the weight sum is
`−1 ≤ 0`, so the code divides by 1 while the claim's formula divides by
the sum `−1`; on two cards of mana value 0 and 1 this inverts the order:
the code ranks `B` first, the claim's formula ranks `A` first. -/
theorem heuristic_divisor_counterexample :
    heuristic_rank_candidates exScoreIdentity exClassifyOther
      [exCard 1 "A", { exCard 2 "B" with cmc := 1 }] "ramp" none negPrefs
      = ["B", "A"]
    ∧ claimHeuristicRanking exScoreIdentity exClassifyOther
      [exCard 1 "A", { exCard 2 "B" with cmc := 1 }] "ramp" none negPrefs 5
      = ["A", "B"] := by
  constructor
  · simp [heuristic_rank_candidates, _normalize_score, _price_score,
      scoredLe, List.insertionSort, List.orderedInsert, negPrefs,
      exScoreIdentity, exClassifyOther, exCard]
    norm_num
  · simp [claimHeuristicRanking, claimHeuristicScore, clip01, scoredLe,
      List.insertionSort, List.orderedInsert, negPrefs, exScoreIdentity,
      exClassifyOther, exCard]
    norm_num

/-- Witness for claim C9 at a concrete candidate list and preferences. -/
theorem heuristic_rank_spec_witness :
    (identityTruthy none ∧ posPrefs.price_cap_usd = some 5 ∧ (0 : ℚ) < 5)
    ∧ heuristic_rank_candidates exScoreIdentity exClassifyOther
        [exCard 1 "A"] "ramp" none posPrefs
      = amendedHeuristicRanking exScoreIdentity exClassifyOther
        [exCard 1 "A"] "ramp" none posPrefs 5 := by
  refine ⟨⟨(fun l h => by cases h), rfl, by decide⟩, ?_⟩
  exact heuristic_rank_spec exScoreIdentity exClassifyOther [exCard 1 "A"]
    "ramp" none posPrefs 5 (fun l h => by cases h) rfl (by decide)

/-! ## Exclusion-soundness of the selection chain (claims C4, C6) -/

/-- Everything the pool scan returns was already collected or comes from
the scanned window. -/
theorem poolScan_subset (classify : Card → String) (role : String)
    (colors : List String) (limit : ℕ) :
    ∀ (l acc : List Card) (x : Card),
    x ∈ poolScan classify role colors limit l acc → x ∈ acc ∨ x ∈ l := by
  intro l
  induction l with
  | nil =>
      intro acc x hx
      rw [poolScan] at hx
      exact Or.inl (List.mem_reverse.mp hx)
  | cons c rest ih =>
      intro acc x hx
      rw [poolScan] at hx
      by_cases hel : poolEligible classify role colors c
      · rw [if_pos hel] at hx
        by_cases hbr : limit ≤ (c :: acc).length
        · rw [if_pos hbr] at hx
          rcases List.mem_cons.mp (List.mem_reverse.mp hx) with rfl | h
          · exact Or.inr (List.mem_cons_self _ _)
          · exact Or.inl h
        · rw [if_neg hbr] at hx
          rcases ih (c :: acc) x hx with h | h
          · rcases List.mem_cons.mp h with rfl | h'
            · exact Or.inr (List.mem_cons_self _ _)
            · exact Or.inl h'
          · exact Or.inr (List.mem_cons_of_mem _ h)
      · rw [if_neg hel] at hx
        rcases ih acc x hx with h | h
        · exact Or.inl h
        · exact Or.inr (List.mem_cons_of_mem _ h)

/-- Everything the fallback role scan returns was already collected or
comes from the scanned window. -/
theorem roleScan_subset (classify : Card → String) (role : String)
    (colors : List String) (cap : ℕ) :
    ∀ (l acc : List Card) (x : Card),
    x ∈ roleScan classify role colors cap l acc → x ∈ acc ∨ x ∈ l := by
  intro l
  induction l with
  | nil =>
      intro acc x hx
      rw [roleScan] at hx
      exact Or.inl (List.mem_reverse.mp hx)
  | cons c rest ih =>
      intro acc x hx
      rw [roleScan] at hx
      by_cases hel : poolEligible classify role colors c
      · rw [if_pos hel] at hx
        by_cases hbr : cap ≤ (c :: acc).length
        · rw [if_pos hbr] at hx
          rcases List.mem_cons.mp (List.mem_reverse.mp hx) with rfl | h
          · exact Or.inr (List.mem_cons_self _ _)
          · exact Or.inl h
        · rw [if_neg hbr] at hx
          rcases ih (c :: acc) x hx with h | h
          · rcases List.mem_cons.mp h with rfl | h'
            · exact Or.inr (List.mem_cons_self _ _)
            · exact Or.inl h'
          · exact Or.inr (List.mem_cons_of_mem _ h)
      · rw [if_neg hel] at hx
        rcases ih acc x hx with h | h
        · exact Or.inl h
        · exact Or.inr (List.mem_cons_of_mem _ h)

/-- Membership in the excluded-and-capped query window implies the card is
not excluded. -/
theorem window_not_excluded (corpus : List Card) (exclude_ids : List ℕ)
    (x : Card)
    (hx : x ∈ (if exclude_ids.isEmpty then corpus
      else corpus.filter (fun card => card.id ∉ exclude_ids)).take 5000) :
    x.id ∉ exclude_ids := by
  have hmem := (List.take_sublist _ _).subset hx
  by_cases hemp : exclude_ids.isEmpty
  · have : exclude_ids = [] := List.isEmpty_iff.mp hemp
    simp [this]
  · rw [if_neg hemp] at hmem
    simpa using (List.mem_filter.mp hmem).2

/-- Cards delivered by the candidate-pool builder are never excluded. -/
theorem build_pool_not_excluded (classify : Card → String)
    (corpus : List Card) (role : String) (colors : List String)
    (exclude_ids : List ℕ) (limit : ℕ) (x : Card)
    (hx : x ∈ _build_candidate_pool classify corpus role colors exclude_ids
      limit) : x.id ∉ exclude_ids := by
  unfold _build_candidate_pool at hx
  rcases poolScan_subset classify role colors limit _ [] x hx with h | h
  · cases h
  · exact window_not_excluded corpus exclude_ids x h

/-- Cards delivered by the council selection are never excluded. -/
theorem council_not_excluded (classify : Card → String)
    (rankOracle : List Card → List String) (corpus : List Card)
    (colors : List String) (role : String) (count : ℕ)
    (exclude_ids : List ℕ) (config : CouncilConfig) (x : Card)
    (hx : x ∈ select_cards_with_council classify rankOracle corpus colors
      role count exclude_ids config) : x.id ∉ exclude_ids := by
  unfold select_cards_with_council at hx
  by_cases hemp : (_build_candidate_pool classify corpus role colors
      exclude_ids (max (count * 6) config.voting.top_k)).isEmpty
  · simp only [hemp, if_pos] at hx
    cases hx
  · simp only [hemp, if_neg, Bool.false_eq_true, if_false] at hx
    have hx' := (List.take_sublist _ _).subset hx
    rcases List.mem_filterMap.mp hx' with ⟨name, _, hfind⟩
    have hxmem : x ∈ (_build_candidate_pool classify corpus role colors
        exclude_ids (max (count * 6) config.voting.top_k)).reverse :=
      List.mem_of_find?_eq_some hfind
    exact build_pool_not_excluded classify corpus role colors exclude_ids _
      x (List.mem_reverse.mp hxmem)

/-- Cards delivered by the identity-scored fallback are never excluded. -/
theorem fallback_not_excluded (classify : Card → String)
    (scoreIdentity : Card → List (String × ℚ) → ℚ)
    (sampler : List Card → ℕ → List Card) (corpus : List Card)
    (role : String) (colors : List String) (count : ℕ)
    (ident : List (String × ℚ)) (exclude_ids : List ℕ) (x : Card)
    (hx : x ∈ select_cards_for_role classify scoreIdentity sampler corpus
      role colors count (some ident) exclude_ids) :
    x.id ∉ exclude_ids := by
  unfold select_cards_for_role at hx
  simp only at hx
  have hx' := (List.take_sublist _ _).subset hx
  rcases List.mem_map.mp hx' with ⟨p, hp, rfl⟩
  have hp' : p ∈ (roleScan classify role colors (count * 3)
      ((if exclude_ids.isEmpty then corpus
        else corpus.filter (fun card => card.id ∉ exclude_ids)).take 5000)
      []).map (fun card => (scoreIdentity card ident, card)) :=
    (List.perm_insertionSort cardScoredLe _).subset hp
  rcases List.mem_map.mp hp' with ⟨c, hc, rfl⟩
  rcases roleScan_subset classify role colors (count * 3) _ [] c hc with h | h
  · cases h
  · exact window_not_excluded corpus exclude_ids c h

/-- A role's combined council-plus-fallback cards avoid the exclusion set
the role started from. -/
theorem role_cards_not_excluded (env : AllocEnv) (st : BuildState)
    (role : String) (target : ℕ) (x : Card)
    (hx : x ∈ _role_cards env st role target) : x.id ∉ st.selected_ids := by
  unfold _role_cards at hx
  by_cases hshort : (select_cards_with_council env.classify
      (env.rankOracle role) env.corpus env.commander_colors role target
      st.selected_ids env.config).length < target
  · rw [if_pos hshort] at hx
    rcases List.mem_append.mp hx with h | h
    · exact council_not_excluded env.classify (env.rankOracle role) env.corpus
        env.commander_colors role target st.selected_ids env.config x h
    · exact fallback_not_excluded env.classify env.scoreIdentity env.sampler
        env.corpus role env.commander_colors _ env.identity st.selected_ids x h
  · rw [if_neg hshort] at hx
    exact council_not_excluded env.classify (env.rankOracle role) env.corpus
      env.commander_colors role target st.selected_ids env.config x hx

/-- One allocation step preserves the allocator invariant. -/
theorem role_step_preserves (env : AllocEnv) (st : BuildState)
    (rt : String × ℕ) (h : AllocInv st) : AllocInv (_role_step env st rt) := by
  obtain ⟨hdisj, hsel⟩ := h
  constructor
  · unfold DisjointRoles at hdisj ⊢
    show (st.cards_by_role ++ [(rt.1, _role_cards env st rt.1 rt.2)]).Pairwise _
    rw [List.pairwise_append]
    refine ⟨hdisj, List.pairwise_singleton _ _, ?_⟩
    intro e1 he1 e2 he2 c hc c' hc'
    rcases List.mem_singleton.mp he2 with rfl
    intro heq
    have hin : c.id ∈ st.selected_ids := hsel e1 he1 c hc
    have hnin : c'.id ∉ st.selected_ids :=
      role_cards_not_excluded env st rt.1 rt.2 c' hc'
    exact hnin (heq ▸ hin)
  · intro e he c hc
    show c.id ∈ st.selected_ids ++ _
    rcases List.mem_append.mp he with h | h
    · exact List.mem_append_left _ (hsel e h c hc)
    · rcases List.mem_singleton.mp h with rfl
      exact List.mem_append_right _ (List.mem_map_of_mem _ hc)

/-- Folding allocation steps preserves the allocator invariant. -/
theorem foldl_role_step_preserves (env : AllocEnv)
    (l : List (String × ℕ)) :
    ∀ st : BuildState, AllocInv st →
      AllocInv (l.foldl (_role_step env) st) := by
  induction l with
  | nil => intro st h; exact h
  | cons rt rest ih =>
      intro st h
      exact ih _ (role_step_preserves env st rt h)

/-- Claim C4: in a completed build, no candidate identifier appears in two
different roles' output lists: every role's selections enter the single
global exclusion set before the next role starts (second conjunct), and
both the candidate-pool builder and the fallback selection refuse anything
in that set (third and fourth conjuncts), which makes the recorded
per-role lists pairwise disjoint (first conjunct). -/
theorem council_roles_globally_unique (env : AllocEnv)
    (init_selected : List ℕ) :
    DisjointRoles (_generate_deck_roles env init_selected).cards_by_role
    ∧ (∀ e ∈ (role_targets.foldl (_role_step env)
        { cards_by_role := [], selected_ids := init_selected,
          shortfall := 0 }).cards_by_role,
        ∀ c ∈ e.2, c.id ∈ (role_targets.foldl (_role_step env)
        { cards_by_role := [], selected_ids := init_selected,
          shortfall := 0 }).selected_ids)
    ∧ (∀ (corpus : List Card) (role : String) (colors : List String)
        (excl : List ℕ) (limit : ℕ) (c : Card),
        c ∈ _build_candidate_pool env.classify corpus role colors excl
          limit → c.id ∉ excl)
    ∧ (∀ (corpus : List Card) (role : String) (colors : List String)
        (count : ℕ) (ident : List (String × ℚ)) (excl : List ℕ) (c : Card),
        c ∈ select_cards_for_role env.classify env.scoreIdentity env.sampler
          corpus role colors count (some ident) excl → c.id ∉ excl) := by
  have hinv : AllocInv (role_targets.foldl (_role_step env)
      { cards_by_role := [], selected_ids := init_selected,
        shortfall := 0 }) :=
    foldl_role_step_preserves env role_targets _
      ⟨List.Pairwise.nil, by intro e he; cases he⟩
  refine ⟨?_, hinv.2, ?_, ?_⟩
  · exact (role_step_preserves env _
      ("synergy", 24 + (role_targets.foldl (_role_step env)
        { cards_by_role := [], selected_ids := init_selected,
          shortfall := 0 }).shortfall) hinv).1
  · intro corpus role colors excl limit c hc
    exact build_pool_not_excluded env.classify corpus role colors excl limit
      c hc
  · intro corpus role colors count ident excl c hc
    exact fallback_not_excluded env.classify env.scoreIdentity env.sampler
      corpus role colors count ident excl c hc

/-- The allocation fold appends one entry per role and accumulates exactly
the per-role deficits `target − |cards|`. -/
theorem foldl_role_step_spec (env : AllocEnv) (l : List (String × ℕ)) :
    ∀ st : BuildState, ∃ entries : List (String × List Card),
      (l.foldl (_role_step env) st).cards_by_role
        = st.cards_by_role ++ entries
      ∧ entries.length = l.length
      ∧ (l.foldl (_role_step env) st).shortfall
          = st.shortfall + (List.zipWith
              (fun (rt : String × ℕ) (e : String × List Card) =>
                rt.2 - e.2.length) l entries).sum := by
  induction l with
  | nil => intro st; exact ⟨[], by simp, rfl, by simp⟩
  | cons rt rest ih =>
      intro st
      obtain ⟨entries, h1, h2, h3⟩ := ih (_role_step env st rt)
      refine ⟨(rt.1, _role_cards env st rt.1 rt.2) :: entries, ?_, ?_, ?_⟩
      · rw [List.foldl_cons, h1]
        have hcb : (_role_step env st rt).cards_by_role
            = st.cards_by_role ++ [(rt.1, _role_cards env st rt.1 rt.2)] :=
          rfl
        rw [hcb, List.append_assoc, List.singleton_append]
      · simp [h2]
      · rw [List.foldl_cons, h3]
        have hstep : (_role_step env st rt).shortfall
            = st.shortfall + (rt.2 - (_role_cards env st rt.1 rt.2).length) := by
          show (if (_role_cards env st rt.1 rt.2).length < rt.2
            then st.shortfall + (rt.2 - (_role_cards env st rt.1 rt.2).length)
            else st.shortfall) = _
          by_cases h : (_role_cards env st rt.1 rt.2).length < rt.2
          · rw [if_pos h]
          · rw [if_neg h]
            have : rt.2 - (_role_cards env st rt.1 rt.2).length = 0 :=
              Nat.sub_eq_zero_of_le (Nat.le_of_not_lt h)
            omega
        rw [hstep, List.zipWith_cons_cons, List.sum_cons]
        dsimp only
        omega

/-- Claim C6: a fixed role yielding `k < T` cards bumps the shortfall
accumulator by exactly `T − k`, and the final catch-all synergy allocation
runs with target exactly `24 +` the total accumulated shortfall, i.e.
`24 + Σ (targetᵢ − |cardsᵢ|)` over the fixed roles' recorded outputs. -/
theorem shortfall_accumulation_spec :
    (∀ (env : AllocEnv) (st : BuildState) (role : String) (target : ℕ),
      (_role_cards env st role target).length < target →
      (_role_step env st (role, target)).shortfall
        = st.shortfall + (target - (_role_cards env st role target).length))
    ∧ (∀ (env : AllocEnv) (init_selected : List ℕ),
        ∃ entries : List (String × List Card),
        (role_targets.foldl (_role_step env)
          { cards_by_role := [], selected_ids := init_selected,
            shortfall := 0 }).cards_by_role = entries
        ∧ entries.length = role_targets.length
        ∧ (_generate_deck_roles env init_selected).synergy_target
            = 24 + (List.zipWith
                (fun (rt : String × ℕ) (e : String × List Card) =>
                  rt.2 - e.2.length) role_targets entries).sum) := by
  constructor
  · intro env st role target h
    show (if (_role_cards env st role target).length < target
      then st.shortfall + (target - (_role_cards env st role target).length)
      else st.shortfall) = _
    rw [if_pos h]
  · intro env init_selected
    obtain ⟨entries, h1, h2, h3⟩ := foldl_role_step_spec env role_targets
      { cards_by_role := [], selected_ids := init_selected, shortfall := 0 }
    refine ⟨entries, by simpa using h1, h2, ?_⟩
    have htar : (_generate_deck_roles env init_selected).synergy_target
        = 24 + (role_targets.foldl (_role_step env)
          { cards_by_role := [], selected_ids := init_selected,
            shortfall := 0 }).shortfall := rfl
    rw [htar, h3]
    simp

/-- Witness for claim C6: in the small environment the `ramp` role yields
one card against a target of 10, and the step bumps the shortfall by 9. -/
theorem shortfall_accumulation_spec_witness :
    ((_role_cards exEnv ⟨[], [], 0⟩ "ramp" 10).length < 10)
    ∧ (_role_step exEnv ⟨[], [], 0⟩ ("ramp", 10)).shortfall
        = 0 + (10 - (_role_cards exEnv ⟨[], [], 0⟩ "ramp" 10).length) :=
  ⟨by decide, shortfall_accumulation_spec.1 exEnv ⟨[], [], 0⟩ "ramp" 10
    (by decide)⟩

/-- Witness for claim C4: a concrete pool build accepts a card, and that
card is indeed outside the (empty) exclusion set. -/
theorem council_roles_globally_unique_witness :
    (exCard 1 "R1") ∈ _build_candidate_pool exEnv.classify [exCard 1 "R1"]
      "ramp" [] [] 5
    ∧ (exCard 1 "R1").id ∉ ([] : List ℕ) :=
  ⟨by decide, (council_roles_globally_unique exEnv []).2.2.1 [exCard 1 "R1"]
    "ramp" [] [] 5 (exCard 1 "R1") (by decide)⟩
